import Mathlib

/-!
Shallow embedding of the profiling collector (`src/src/profile.cpp`) from
the rehex repository: per-bucket statistics (`Stats`), the time-bucketed
ring of slots owned by a `ProfilingCollector`, windowed aggregation
(`accumulate_stats`), sample recording (`record_time`), and the
process-wide registry of live collectors.

All counters in the C++ code are `uint64_t`; they are embedded as `Nat`
with an explicit `% 2 ^ 64` wherever the code performs arithmetic that can
wrap (sums and increments).  Comparisons and divisions on stored values
need no reduction because stored values are kept below `2 ^ 64` whenever
the inputs are.  The compile-time constants `SLOT_DURATION_MS` and
`NUM_SLOTS` live in the (absent) header, so `SLOT_DURATION_MS` is passed
as a parameter and `NUM_SLOTS` is taken to be the length of the slot
list.
-/

namespace REHex

/-- The modulus `2 ^ 64` of `uint64_t` arithmetic. -/
def U64 : Nat := 2 ^ 64

/-- Embeds `ProfilingCollector::Stats`: min/max/total running times and a sample
counter for one time bucket, all `uint64_t`. -/
structure Stats where
  min_time : Nat
  max_time : Nat
  total_time : Nat
  num_samples : Nat
deriving Repr, DecidableEq

/-- The default-constructed / `reset()` value of `Stats`: all fields zero.
This is the zero-count identity of merging. -/
def Stats.identity : Stats := ⟨0, 0, 0, 0⟩

/-- Embeds `Stats::record_time(duration)`: fold one sample of the given duration
into the bucket.  `total_time += duration` and `++num_samples` are
`uint64_t` operations, hence the `% U64`. -/
def Stats.record_time (s : Stats) (duration : Nat) : Stats :=
  if s.num_samples = 0 then
    { min_time := duration
      max_time := duration
      total_time := duration
      num_samples := (s.num_samples + 1) % U64 }
  else
    { min_time := if s.min_time > duration then duration else s.min_time
      max_time := if s.max_time < duration then duration else s.max_time
      total_time := (s.total_time + duration) % U64
      num_samples := (s.num_samples + 1) % U64 }

/-- Embeds `Stats::operator+=`: merge another bucket's statistics into this one.
A zero-count right-hand side is a no-op; otherwise min/max are combined
(taking the rhs value outright when the lhs is empty) and total/count are
added with `uint64_t` wrap-around. -/
def Stats.merge (self rhs : Stats) : Stats :=
  if rhs.num_samples > 0 then
    { min_time := if self.num_samples = 0 ∨ self.min_time > rhs.min_time
        then rhs.min_time else self.min_time
      max_time := if self.num_samples = 0 ∨ self.max_time < rhs.max_time
        then rhs.max_time else self.max_time
      total_time := (self.total_time + rhs.total_time) % U64
      num_samples := (self.num_samples + rhs.num_samples) % U64 }
  else self

/-- Embeds `Stats::get_avg_time()`: truncating mean, `0` when no samples. -/
def Stats.get_avg_time (s : Stats) : Nat :=
  if s.num_samples > 0 then s.total_time / s.num_samples else 0

/-- A `ProfilingCollector`'s mutable state: the ring of `NUM_SLOTS`
buckets (`slots`, with `slots.length = NUM_SLOTS`; index 0 is the bucket
containing "now") and the time bucket the ring's head currently sits in. -/
structure Collector where
  slots : List Stats
  head_time_bucket : Nat
deriving Repr, DecidableEq

/-- A freshly constructed collector: `head_time_bucket = 0` and every slot
reset to the zero value (constructor calls `reset()`). -/
def Collector.fresh (numSlots : Nat) : Collector :=
  ⟨List.replicate numSlots Stats.identity, 0⟩

/-- Embeds `ProfilingCollector::reset(0, NUM_SLOTS)`: zero every bucket, leaving
`head_time_bucket` unchanged. -/
def Collector.resetAll (c : Collector) : Collector :=
  { c with slots := List.replicate c.slots.length Stats.identity }

/-- The slot-shifting step of `record_time`, on the slot list: when
`shift < NUM_SLOTS` the code `memmove`s the first `NUM_SLOTS - shift`
slots to offset `shift` and then `reset`s indices `[0, shift)`; otherwise
(`slots_to_keep = 0`) it resets every slot. -/
def advance_slots (slots : List Stats) (shift : Nat) : List Stats :=
  if shift < slots.length then
    List.replicate shift Stats.identity ++ slots.take (slots.length - shift)
  else
    List.replicate slots.length Stats.identity

/-- The time-advancing prefix of `ProfilingCollector::record_time`: when
the current time bucket differs from the head, shift the ring by
`now_time_bucket - head_time_bucket` (a `uint64_t` subtraction, embedded
with explicit wrap-around) and move the head to the current bucket. -/
def Collector.advance_ring (c : Collector) (now_time_bucket : Nat) : Collector :=
  if now_time_bucket ≠ c.head_time_bucket then
    let shift_by := (now_time_bucket + U64 - c.head_time_bucket) % U64
    { slots := advance_slots c.slots shift_by
      head_time_bucket := now_time_bucket }
  else c

/-- Embeds `ProfilingCollector::record_time(begin_time, duration)`.  The clock
read `get_monotonic_us()` is passed explicitly as `now_us`.  After
advancing the ring to the current time bucket, the sample is folded into
slot `head_time_bucket - begin_time_bucket` when its bucket satisfies the
in-range guard, and silently dropped otherwise.  `begin_time_bucket +
NUM_SLOTS` is a `uint64_t` sum, hence the `% U64`. -/
def Collector.record_time (SLOT_DURATION_MS : Nat) (now_us begin_time duration : Nat)
    (c : Collector) : Collector :=
  let now_time_bucket := now_us / (SLOT_DURATION_MS * 1000)
  let c := c.advance_ring now_time_bucket
  let begin_time_bucket := begin_time / (SLOT_DURATION_MS * 1000)
  if begin_time_bucket ≤ c.head_time_bucket ∧
      c.head_time_bucket < (begin_time_bucket + c.slots.length) % U64 then
    let slot_idx := c.head_time_bucket - begin_time_bucket
    let s := (c.slots.getD slot_idx Stats.identity).record_time duration
    { c with slots := c.slots.set slot_idx s }
  else c

/-- Embeds `ProfilingCollector::record_time` with the slot access made explicit
as a total, `Option`-returning list lookup: the `none` branch is the
out-of-bounds access the C++ array indexing must never perform. -/
def Collector.record_timeChecked (SLOT_DURATION_MS : Nat)
    (now_us begin_time duration : Nat) (c : Collector) : Option Collector :=
  let now_time_bucket := now_us / (SLOT_DURATION_MS * 1000)
  let c := c.advance_ring now_time_bucket
  let begin_time_bucket := begin_time / (SLOT_DURATION_MS * 1000)
  if begin_time_bucket ≤ c.head_time_bucket ∧
      c.head_time_bucket < (begin_time_bucket + c.slots.length) % U64 then
    let slot_idx := c.head_time_bucket - begin_time_bucket
    match c.slots[slot_idx]? with
    | some s => some { c with slots := c.slots.set slot_idx (s.record_time duration) }
    | none => none
  else some c

/-- Embeds `ProfilingCollector::accumulate_stats(window_duration_ms)`: merge the
slots with indices in `[1, min(1 + window_duration_ms / SLOT_DURATION_MS,
NUM_SLOTS))` into a default-constructed `Stats`. -/
def Collector.accumulate_stats (SLOT_DURATION_MS : Nat) (c : Collector)
    (window_duration_ms : Nat) : Stats :=
  let stats_end := min (1 + window_duration_ms / SLOT_DURATION_MS) c.slots.length
  ((c.slots.take stats_end).drop 1).foldl Stats.merge Stats.identity

/-!
The registry: a process-wide `std::list<ProfilingCollector*>`.  Collectors
are modelled by abstract identifiers (distinct objects have distinct
addresses, hence distinct ids).  The constructor appends the collector
(`emplace_back`) and the destructor erases the stored iterator; erasing an
entry that is no longer in the list is undefined behaviour in C++, so the
embedding of unregistration returns `none` when the id is absent.
-/

/-- Registration (`collectors->emplace_back(this)` in the constructor):
append the collector at the back of the registry list. -/
def registerCollector (registry : List Nat) (id : Nat) : List Nat :=
  registry ++ [id]

/-- Unregistration (`collectors->erase(this_iter)` in the destructor):
remove the collector's entry.  When the entry has already been removed the
erase call has no defined behaviour, embedded as `none`. -/
def unregisterCollector (registry : List Nat) (id : Nat) : Option (List Nat) :=
  if id ∈ registry then some (registry.erase id) else none

/-- A registry lifecycle event: a collector is constructed or destroyed. -/
inductive RegEvent where
  | reg (id : Nat)
  | unreg (id : Nat)
deriving Repr, DecidableEq

/-- Run a sequence of constructions/destructions against the registry. -/
def applyEvents (registry : List Nat) : List RegEvent → Option (List Nat)
  | [] => some registry
  | RegEvent.reg i :: rest => applyEvents (registerCollector registry i) rest
  | RegEvent.unreg i :: rest =>
    match unregisterCollector registry i with
    | some r => applyEvents r rest
    | none => none

/-- The ids registered by a sequence of events, in registration order. -/
def regIds : List RegEvent → List Nat
  | [] => []
  | RegEvent.reg i :: rest => i :: regIds rest
  | RegEvent.unreg _ :: rest => regIds rest

/-- The ids unregistered by a sequence of events. -/
def unregIds : List RegEvent → List Nat
  | [] => []
  | RegEvent.reg _ :: rest => unregIds rest
  | RegEvent.unreg i :: rest => i :: unregIds rest

/-- Well-formedness of a `Stats` value as a `uint64_t` struct whose
zero-count state carries no stale data: every field is a `uint64_t` value
(below `2 ^ 64`) and a zero sample count forces the min/max/total fields
to zero, as `Stats()` / `reset()` establish. -/
def Stats.wf (s : Stats) : Prop :=
  s.min_time < U64 ∧ s.max_time < U64 ∧ s.total_time < U64 ∧ s.num_samples < U64 ∧
  (s.num_samples = 0 → s.min_time = 0 ∧ s.max_time = 0 ∧ s.total_time = 0)

instance (s : Stats) : Decidable s.wf := by
  unfold Stats.wf
  infer_instance

/-- The per-bucket numeric invariant making the truncating mean lie
between min and max: min bounds the total from below and max from above,
sample-count-many times. -/
def Stats.no_overflow (s : Stats) : Prop :=
  s.num_samples > 0 →
    s.min_time ≤ s.max_time ∧
    s.min_time * s.num_samples ≤ s.total_time ∧
    s.total_time ≤ s.max_time * s.num_samples

instance (s : Stats) : Decidable s.no_overflow := by
  unfold Stats.no_overflow
  infer_instance

lemma Stats.merge_of_zero (s x : Stats) (h : x.num_samples = 0) :
    Stats.merge s x = s := by
  simp [Stats.merge, h]

lemma Stats.merge_pos (a b : Stats) (ha : a.num_samples ≠ 0) (hb : b.num_samples ≠ 0) :
    Stats.merge a b =
      ⟨min a.min_time b.min_time, max a.max_time b.max_time,
        (a.total_time + b.total_time) % U64, (a.num_samples + b.num_samples) % U64⟩ := by
  have hb' : b.num_samples > 0 := Nat.pos_of_ne_zero hb
  simp only [Stats.merge, hb', if_true, ha, false_or, Stats.mk.injEq, and_true]
  constructor
  · split <;> omega
  · split <;> omega

lemma Stats.identity_wf : Stats.identity.wf := by decide

lemma Stats.wf_zero_eq_identity (s : Stats) (hwf : s.wf) (h : s.num_samples = 0) :
    s = Stats.identity := by
  obtain ⟨-, -, -, -, hz⟩ := hwf
  obtain ⟨h1, h2, h3⟩ := hz h
  cases s
  simp_all [Stats.identity]

lemma Stats.merge_identity_left (b : Stats) (hb : b.wf) :
    Stats.merge Stats.identity b = b := by
  by_cases h : b.num_samples = 0
  · rw [Stats.merge_of_zero _ _ h, Stats.wf_zero_eq_identity b hb h]
  · obtain ⟨-, -, hb3, hb4, -⟩ := hb
    have hb' : b.num_samples > 0 := Nat.pos_of_ne_zero h
    simp only [Stats.merge, hb', if_true, Stats.identity]
    cases b
    simp_all [Nat.mod_eq_of_lt]

lemma Stats.foldl_merge_all_zero (l : List Stats) (a : Stats)
    (h : ∀ x ∈ l, x.num_samples = 0) : l.foldl Stats.merge a = a := by
  induction l generalizing a with
  | nil => rfl
  | cons x xs ih =>
    rw [List.foldl_cons, Stats.merge_of_zero a x (h x (by simp))]
    exact ih a (fun y hy => h y (by simp [hy]))

lemma U64_pos : 0 < U64 := by norm_num [U64]

lemma Stats.merge_wf (a b : Stats) (ha : a.wf) (hb : b.wf)
    (hcount : a.num_samples + b.num_samples < U64) : (Stats.merge a b).wf := by
  by_cases hb0 : b.num_samples = 0
  · rw [Stats.merge_of_zero a b hb0]; exact ha
  · by_cases ha0 : a.num_samples = 0
    · rw [Stats.wf_zero_eq_identity a ha ha0, Stats.merge_identity_left b hb]; exact hb
    · rw [Stats.merge_pos a b ha0 hb0]
      obtain ⟨ha1, ha2, -, -, -⟩ := ha
      obtain ⟨hb1, hb2, -, -, -⟩ := hb
      refine ⟨?_, ?_, ?_, ?_, ?_⟩
      · show min a.min_time b.min_time < U64
        omega
      · show max a.max_time b.max_time < U64
        omega
      · show (a.total_time + b.total_time) % U64 < U64
        exact Nat.mod_lt _ U64_pos
      · show (a.num_samples + b.num_samples) % U64 < U64
        exact Nat.mod_lt _ U64_pos
      · show (a.num_samples + b.num_samples) % U64 = 0 →
          min a.min_time b.min_time = 0 ∧ max a.max_time b.max_time = 0 ∧
          (a.total_time + b.total_time) % U64 = 0
        intro hz
        rw [Nat.mod_eq_of_lt hcount] at hz
        exact absurd hz (by omega)

lemma Stats.merge_comm_wf (a b : Stats) (ha : a.wf) (hb : b.wf) :
    Stats.merge a b = Stats.merge b a := by
  by_cases ha0 : a.num_samples = 0
  · rw [Stats.wf_zero_eq_identity a ha ha0, Stats.merge_identity_left b hb,
      Stats.merge_of_zero b Stats.identity rfl]
  · by_cases hb0 : b.num_samples = 0
    · rw [Stats.wf_zero_eq_identity b hb hb0, Stats.merge_identity_left a ha,
        Stats.merge_of_zero a Stats.identity rfl]
    · rw [Stats.merge_pos a b ha0 hb0, Stats.merge_pos b a hb0 ha0]
      simp only [Stats.mk.injEq]
      exact ⟨min_comm _ _, max_comm _ _, by rw [Nat.add_comm], by rw [Nat.add_comm]⟩

lemma Stats.merge_assoc_wf (a b c : Stats) (ha : a.wf) (hb : b.wf) (hc : c.wf)
    (hcount : a.num_samples + b.num_samples + c.num_samples < U64) :
    Stats.merge (Stats.merge a b) c = Stats.merge a (Stats.merge b c) := by
  by_cases ha0 : a.num_samples = 0
  · rw [Stats.wf_zero_eq_identity a ha ha0, Stats.merge_identity_left b hb,
      Stats.merge_identity_left (Stats.merge b c)
        (Stats.merge_wf b c hb hc (by omega))]
  · by_cases hb0 : b.num_samples = 0
    · rw [Stats.wf_zero_eq_identity b hb hb0, Stats.merge_of_zero a Stats.identity rfl,
        Stats.merge_identity_left c hc]
    · by_cases hc0 : c.num_samples = 0
      · rw [Stats.merge_of_zero (Stats.merge a b) c hc0, Stats.merge_of_zero b c hc0]
      · have hab : a.num_samples + b.num_samples < U64 := by omega
        have hbc : b.num_samples + c.num_samples < U64 := by omega
        have hab0 : (Stats.merge a b).num_samples ≠ 0 := by
          rw [Stats.merge_pos a b ha0 hb0]
          simp only [Nat.mod_eq_of_lt hab]
          omega
        have hbc0 : (Stats.merge b c).num_samples ≠ 0 := by
          rw [Stats.merge_pos b c hb0 hc0]
          simp only [Nat.mod_eq_of_lt hbc]
          omega
        rw [Stats.merge_pos a b ha0 hb0, Stats.merge_pos b c hb0 hc0] at *
        rw [Stats.merge_pos _ c hab0 hc0, Stats.merge_pos a _ ha0 hbc0]
        simp only [Stats.mk.injEq]
        refine ⟨min_assoc _ _ _, max_assoc _ _ _, ?_, ?_⟩
        · rw [Nat.mod_add_mod, Nat.add_mod_mod, Nat.add_assoc]
        · rw [Nat.mod_add_mod, Nat.add_mod_mod, Nat.add_assoc]

lemma Stats.record_time_no_overflow (s : Stats) (d : Nat) (h : s.no_overflow)
    (htot : s.total_time + d < U64) (hcnt : s.num_samples + 1 < U64) :
    (s.record_time d).no_overflow := by
  have h1U : (1 : Nat) < U64 := by norm_num [U64]
  by_cases h0 : s.num_samples = 0
  · unfold Stats.record_time
    rw [if_pos h0, h0]
    intro _
    refine ⟨Nat.le_refl d, ?_, ?_⟩
    · show d * ((0 + 1) % U64) ≤ d
      rw [Nat.zero_add, Nat.mod_eq_of_lt h1U, Nat.mul_one]
    · show d ≤ d * ((0 + 1) % U64)
      rw [Nat.zero_add, Nat.mod_eq_of_lt h1U, Nat.mul_one]
  · obtain ⟨h1, h2, h3⟩ := h (Nat.pos_of_ne_zero h0)
    unfold Stats.record_time
    rw [if_neg h0]
    intro _
    set m := if s.min_time > d then d else s.min_time with hm
    set M := if s.max_time < d then d else s.max_time with hM
    have hm1 : m ≤ s.min_time := by rw [hm]; split <;> omega
    have hm2 : m ≤ d := by rw [hm]; split <;> omega
    have hM1 : s.max_time ≤ M := by rw [hM]; split <;> omega
    have hM2 : d ≤ M := by rw [hM]; split <;> omega
    have hcnt' : (s.num_samples + 1) % U64 = s.num_samples + 1 := Nat.mod_eq_of_lt hcnt
    have htot' : (s.total_time + d) % U64 = s.total_time + d := Nat.mod_eq_of_lt htot
    refine ⟨?_, ?_, ?_⟩
    · show m ≤ M
      omega
    · show m * ((s.num_samples + 1) % U64) ≤ (s.total_time + d) % U64
      rw [hcnt', htot']
      calc m * (s.num_samples + 1) = m * s.num_samples + m := by ring
        _ ≤ s.min_time * s.num_samples + d :=
          Nat.add_le_add (Nat.mul_le_mul_right _ hm1) hm2
        _ ≤ s.total_time + d := Nat.add_le_add_right h2 d
    · show (s.total_time + d) % U64 ≤ M * ((s.num_samples + 1) % U64)
      rw [hcnt', htot']
      calc s.total_time + d ≤ s.max_time * s.num_samples + d := Nat.add_le_add_right h3 d
        _ ≤ M * s.num_samples + M := Nat.add_le_add (Nat.mul_le_mul_right _ hM1) hM2
        _ = M * (s.num_samples + 1) := by ring

lemma Stats.merge_no_overflow (a b : Stats) (hawf : a.wf) (hbwf : b.wf)
    (ha : a.no_overflow) (hb : b.no_overflow)
    (hcount : a.num_samples + b.num_samples < U64)
    (htotal : a.total_time + b.total_time < U64) :
    (Stats.merge a b).no_overflow := by
  by_cases hb0 : b.num_samples = 0
  · rw [Stats.merge_of_zero a b hb0]; exact ha
  · by_cases ha0 : a.num_samples = 0
    · rw [Stats.wf_zero_eq_identity a hawf ha0, Stats.merge_identity_left b hbwf]
      exact hb
    · obtain ⟨ha1, ha2, ha3⟩ := ha (Nat.pos_of_ne_zero ha0)
      obtain ⟨hb1, hb2, hb3⟩ := hb (Nat.pos_of_ne_zero hb0)
      rw [Stats.merge_pos a b ha0 hb0]
      intro _
      refine ⟨?_, ?_, ?_⟩
      · show min a.min_time b.min_time ≤ max a.max_time b.max_time
        omega
      · show min a.min_time b.min_time * ((a.num_samples + b.num_samples) % U64) ≤
          (a.total_time + b.total_time) % U64
        rw [Nat.mod_eq_of_lt hcount, Nat.mod_eq_of_lt htotal]
        calc min a.min_time b.min_time * (a.num_samples + b.num_samples)
            = min a.min_time b.min_time * a.num_samples
              + min a.min_time b.min_time * b.num_samples := by ring
          _ ≤ a.min_time * a.num_samples + b.min_time * b.num_samples :=
            Nat.add_le_add (Nat.mul_le_mul_right _ (min_le_left _ _))
              (Nat.mul_le_mul_right _ (min_le_right _ _))
          _ ≤ a.total_time + b.total_time := Nat.add_le_add ha2 hb2
      · show (a.total_time + b.total_time) % U64 ≤
          max a.max_time b.max_time * ((a.num_samples + b.num_samples) % U64)
        rw [Nat.mod_eq_of_lt hcount, Nat.mod_eq_of_lt htotal]
        calc a.total_time + b.total_time
            ≤ a.max_time * a.num_samples + b.max_time * b.num_samples :=
              Nat.add_le_add ha3 hb3
          _ ≤ max a.max_time b.max_time * a.num_samples
              + max a.max_time b.max_time * b.num_samples :=
            Nat.add_le_add (Nat.mul_le_mul_right _ (le_max_left _ _))
              (Nat.mul_le_mul_right _ (le_max_right _ _))
          _ = max a.max_time b.max_time * (a.num_samples + b.num_samples) := by ring

/-- Claim C3: with `SLOT_DURATION_MS = 1000` and `NUM_SLOTS = 5`, recording
`(start = 0 µs, duration = 10)` at clock `0 µs` and then
`(start = 1000000 µs, duration = 20)` at clock `1000000 µs` on a fresh
collector, a subsequent `accumulate_stats(5000)` (the clock is not read by
accumulation) returns exactly min 10, max 10, average 10, count 1, while
the second sample sits in the excluded current bucket 0. -/
theorem concrete_two_records_then_accumulate :
    (((Collector.fresh 5).record_time 1000 0 0 10).record_time 1000 1000000
        1000000 20).accumulate_stats 1000 5000 = ⟨10, 10, 10, 1⟩ ∧
    ((((Collector.fresh 5).record_time 1000 0 0 10).record_time 1000 1000000
        1000000 20).accumulate_stats 1000 5000).get_avg_time = 10 ∧
    (((((Collector.fresh 5).record_time 1000 0 0 10).record_time 1000 1000000
        1000000 20).slots.getD 0 Stats.identity).num_samples = 1 ∧
      ((((Collector.fresh 5).record_time 1000 0 0 10).record_time 1000 1000000
        1000000 20).slots.getD 0 Stats.identity).min_time = 20) := by
  decide

/-- Claim C6 counterexample: on raw `Stats` values `merge` is not
commutative — a zero-count value carrying a nonzero `min_time` (never
produced by `record`/`reset`, but a value of the type) is returned
unchanged from one side and discarded from the other. -/
theorem merge_not_commutative_on_raw_stats :
    Stats.merge ⟨1, 1, 1, 0⟩ ⟨0, 0, 0, 0⟩ ≠ Stats.merge ⟨0, 0, 0, 0⟩ ⟨1, 1, 1, 0⟩ := by
  decide

/-- Claim C6 (amended): restricted to well-formed `Stats` values (fields
below `2 ^ 64`, a zero count forcing zero min/max/total, as every value
built by `reset`/`record`/`merge` from fresh buckets is), `merge` is
commutative, and it is associative whenever the summed counts and totals
do not overflow `uint64_t`; the zero-count value is a two-sided identity,
on the right for every raw value. -/
theorem merge_comm_assoc_identity_on_wf (a b c : Stats)
    (ha : a.wf) (hb : b.wf) (hc : c.wf)
    (hcount : a.num_samples + b.num_samples + c.num_samples < U64) :
    Stats.merge a b = Stats.merge b a ∧
    Stats.merge (Stats.merge a b) c = Stats.merge a (Stats.merge b c) ∧
    Stats.merge a Stats.identity = a ∧ Stats.merge Stats.identity a = a :=
  ⟨Stats.merge_comm_wf a b ha hb,
    Stats.merge_assoc_wf a b c ha hb hc hcount,
    Stats.merge_of_zero a Stats.identity rfl,
    Stats.merge_identity_left a ha⟩

/-- Claim C6 witness: the amended statement applied at concrete
well-formed buckets. -/
theorem merge_comm_assoc_identity_on_wf_witness :
    Stats.merge ⟨1, 5, 6, 2⟩ ⟨2, 3, 5, 2⟩ = Stats.merge ⟨2, 3, 5, 2⟩ ⟨1, 5, 6, 2⟩ ∧
    Stats.merge (Stats.merge ⟨1, 5, 6, 2⟩ ⟨2, 3, 5, 2⟩) ⟨4, 4, 4, 1⟩ =
      Stats.merge ⟨1, 5, 6, 2⟩ (Stats.merge ⟨2, 3, 5, 2⟩ ⟨4, 4, 4, 1⟩) ∧
    Stats.merge ⟨1, 5, 6, 2⟩ Stats.identity = ⟨1, 5, 6, 2⟩ ∧
    Stats.merge Stats.identity ⟨1, 5, 6, 2⟩ = ⟨1, 5, 6, 2⟩ :=
  merge_comm_assoc_identity_on_wf ⟨1, 5, 6, 2⟩ ⟨2, 3, 5, 2⟩ ⟨4, 4, 4, 1⟩
    (by decide) (by decide) (by decide) (by decide)

/-- Claim C7 counterexample: a bucket reached by two `record_time` calls
of duration `2 ^ 63` has a positive count but its truncating average (the
wrapped total divided by the count) falls strictly below its recorded
minimum, so `min <= average` fails on reachable values once the `uint64_t`
total overflows. -/
theorem average_below_min_after_total_overflow :
    ((Stats.identity.record_time (2 ^ 63)).record_time (2 ^ 63)).num_samples > 0 ∧
    ((Stats.identity.record_time (2 ^ 63)).record_time (2 ^ 63)).get_avg_time <
      ((Stats.identity.record_time (2 ^ 63)).record_time (2 ^ 63)).min_time := by
  decide

/-- Claim C7 (amended): for every `Stats` value satisfying the
no-overflow bucket invariant (`min <= max` and `count * min <= total <=
count * max`, which `record_time` and `merge` preserve while running
totals and counts stay below `2 ^ 64`), `get_avg_time` is the truncating
quotient `total / count` and lies between min and max when the count is
positive, and is `0` when the count is zero. -/
theorem average_formula_and_bounds (s : Stats) (h : s.no_overflow) :
    (s.num_samples = 0 → s.get_avg_time = 0) ∧
    (s.num_samples > 0 →
      s.get_avg_time = s.total_time / s.num_samples ∧
      s.min_time ≤ s.get_avg_time ∧ s.get_avg_time ≤ s.max_time) := by
  constructor
  · intro h0
    simp [Stats.get_avg_time, h0]
  · intro hpos
    obtain ⟨h1, h2, h3⟩ := h hpos
    have havg : s.get_avg_time = s.total_time / s.num_samples := by
      simp [Stats.get_avg_time, hpos]
    refine ⟨havg, ?_, ?_⟩
    · rw [havg]
      exact (Nat.le_div_iff_mul_le hpos).mpr h2
    · rw [havg]
      calc s.total_time / s.num_samples
          ≤ s.max_time * s.num_samples / s.num_samples := Nat.div_le_div_right h3
        _ = s.max_time := Nat.mul_div_cancel s.max_time hpos

/-- Claim C7 witness: the amended statement applied at a concrete
in-bounds bucket. -/
theorem average_formula_and_bounds_witness :
    Stats.get_avg_time ⟨3, 7, 10, 2⟩ =
      Stats.total_time ⟨3, 7, 10, 2⟩ / Stats.num_samples ⟨3, 7, 10, 2⟩ ∧
    Stats.min_time ⟨3, 7, 10, 2⟩ ≤ Stats.get_avg_time ⟨3, 7, 10, 2⟩ ∧
    Stats.get_avg_time ⟨3, 7, 10, 2⟩ ≤ Stats.max_time ⟨3, 7, 10, 2⟩ :=
  (average_formula_and_bounds ⟨3, 7, 10, 2⟩ (by decide)).2 (by decide)

lemma advance_slots_length (l : List Stats) (shift : Nat) :
    (advance_slots l shift).length = l.length := by
  unfold advance_slots
  split
  · simp only [List.length_append, List.length_replicate, List.length_take]
    omega
  · simp only [List.length_replicate]

lemma advance_ring_head (c : Collector) (nb : Nat) :
    (c.advance_ring nb).head_time_bucket = nb := by
  unfold Collector.advance_ring
  split
  · rfl
  · next h => omega

lemma advance_ring_length (c : Collector) (nb : Nat) :
    (c.advance_ring nb).slots.length = c.slots.length := by
  unfold Collector.advance_ring
  split
  · exact advance_slots_length _ _
  · rfl

lemma record_time_head (S now_us b d : Nat) (c : Collector) :
    (c.record_time S now_us b d).head_time_bucket = now_us / (S * 1000) := by
  simp only [Collector.record_time]
  split
  · exact advance_ring_head c _
  · exact advance_ring_head c _

lemma record_time_length (S now_us b d : Nat) (c : Collector) :
    (c.record_time S now_us b d).slots.length = c.slots.length := by
  simp only [Collector.record_time]
  split
  · simp only [List.length_set]
    exact advance_ring_length c _
  · exact advance_ring_length c _

lemma shift_wrap_eq (head nb : Nat) (h1 : head ≤ nb) (h2 : nb < U64) :
    (nb + U64 - head) % U64 = nb - head := by
  have h : nb + U64 - head = (nb - head) + U64 := by omega
  rw [h, Nat.add_mod_right]
  exact Nat.mod_eq_of_lt (by omega)

lemma getD_replicate_self (n i : Nat) (a : Stats) :
    (List.replicate n a).getD i a = a := by
  rw [List.getD_eq_getElem?_getD, List.getElem?_replicate]
  split <;> rfl

lemma drop_one_take_eq (l : List Stats) (e : Nat) (he : e ≤ l.length) :
    (l.take e).drop 1 =
      (List.range' 1 (e - 1)).map (fun i => l.getD i Stats.identity) := by
  apply List.ext_getElem
  · simp only [List.length_drop, List.length_take, List.length_map, List.length_range']
    omega
  · intro n h1 h2
    have hlen : n < e - 1 := by
      simp only [List.length_drop, List.length_take] at h1
      omega
    have hnl : 1 + n < l.length := by omega
    simp only [List.getElem_drop, List.getElem_take, List.getElem_map,
      List.getElem_range'_1, List.getD_eq_getElem l Stats.identity hnl]

/-- Claim C1: `accumulate_stats(window_duration_ms)` is exactly the
left-fold of `merge`, starting from the zero-count identity, over the
buckets with indices in `[1, min(1 + window_duration_ms /
SLOT_DURATION_MS, NUM_SLOTS))` — bucket 0 is never touched — and in
particular `accumulate_stats(0)` has `count = 0`. -/
theorem accumulate_merges_window_buckets (S : Nat) (c : Collector) (w : Nat) :
    c.accumulate_stats S w =
      ((List.range' 1 (min (1 + w / S) c.slots.length - 1)).map
        (fun i => c.slots.getD i Stats.identity)).foldl Stats.merge Stats.identity ∧
    (c.accumulate_stats S 0).num_samples = 0 := by
  constructor
  · simp only [Collector.accumulate_stats]
    rw [drop_one_take_eq c.slots _ (Nat.min_le_right _ _)]
  · have he : min (1 + 0 / S) c.slots.length - 1 = 0 := by
      have h1 : min (1 + 0 / S) c.slots.length ≤ 1 + 0 / S := Nat.min_le_left _ _
      have hz : 0 / S = 0 := Nat.zero_div S
      omega
    simp only [Collector.accumulate_stats]
    rw [drop_one_take_eq c.slots _ (Nat.min_le_right _ _), he]
    rfl

lemma advance_ring_slots_of_lt (c : Collector) (nb : Nat)
    (hne : nb ≠ c.head_time_bucket) (hmono : c.head_time_bucket ≤ nb) (hub : nb < U64)
    (hlt : nb - c.head_time_bucket < c.slots.length) :
    (c.advance_ring nb).slots =
      List.replicate (nb - c.head_time_bucket) Stats.identity ++
        c.slots.take (c.slots.length - (nb - c.head_time_bucket)) := by
  unfold Collector.advance_ring
  rw [if_pos hne]
  show advance_slots c.slots ((nb + U64 - c.head_time_bucket) % U64) = _
  rw [shift_wrap_eq c.head_time_bucket nb hmono hub]
  unfold advance_slots
  rw [if_pos hlt]

lemma advance_ring_slots_of_ge (c : Collector) (nb : Nat)
    (hne : nb ≠ c.head_time_bucket) (hmono : c.head_time_bucket ≤ nb) (hub : nb < U64)
    (hge : c.slots.length ≤ nb - c.head_time_bucket) :
    (c.advance_ring nb).slots = List.replicate c.slots.length Stats.identity := by
  unfold Collector.advance_ring
  rw [if_pos hne]
  show advance_slots c.slots ((nb + U64 - c.head_time_bucket) % U64) = _
  rw [shift_wrap_eq c.head_time_bucket nb hmono hub]
  unfold advance_slots
  rw [if_neg (by omega)]

/-- Claim C2: advancing the ring to a current bucket `nb ≥ head` moves
the head to `nb`; with `shift = nb - head`, when `shift ≥ NUM_SLOTS`
every bucket is reset to the identity, otherwise the old content of
bucket `i` becomes the content of bucket `i + shift` (for `i + shift ≤
NUM_SLOTS - 1`, the rest being discarded) and buckets `0 .. shift - 1`
are reset; when `nb = head` nothing changes at all. -/
theorem advance_ring_shifts_and_resets (c : Collector) (nb : Nat)
    (hmono : c.head_time_bucket ≤ nb) (hub : nb < U64) :
    (c.advance_ring nb).head_time_bucket = nb ∧
    (nb = c.head_time_bucket → c.advance_ring nb = c) ∧
    (c.slots.length ≤ nb - c.head_time_bucket →
      ∀ i < c.slots.length,
        (c.advance_ring nb).slots.getD i Stats.identity = Stats.identity) ∧
    (nb - c.head_time_bucket < c.slots.length →
      (∀ i, i + (nb - c.head_time_bucket) ≤ c.slots.length - 1 →
        (c.advance_ring nb).slots.getD (i + (nb - c.head_time_bucket)) Stats.identity =
          c.slots.getD i Stats.identity) ∧
      (∀ i < nb - c.head_time_bucket,
        (c.advance_ring nb).slots.getD i Stats.identity = Stats.identity)) := by
  refine ⟨advance_ring_head c nb, ?_, ?_, ?_⟩
  · intro h
    unfold Collector.advance_ring
    rw [if_neg (by omega)]
  · intro hge i hi
    by_cases hne : nb = c.head_time_bucket
    · omega
    · rw [advance_ring_slots_of_ge c nb hne hmono hub hge, getD_replicate_self]
  · intro hlt
    by_cases hne : nb = c.head_time_bucket
    · have h0 : nb - c.head_time_bucket = 0 := by omega
      have hc : c.advance_ring nb = c := by
        unfold Collector.advance_ring
        rw [if_neg (by omega)]
      rw [hc, h0]
      exact ⟨fun i _ => by rw [Nat.add_zero], fun i hi => absurd hi (by omega)⟩
    · rw [advance_ring_slots_of_lt c nb hne hmono hub hlt]
      constructor
      · intro i hile
        rw [List.getD_append_right _ _ _ _
          (by rw [List.length_replicate]; exact Nat.le_add_left _ _)]
        rw [List.length_replicate, Nat.add_sub_cancel]
        have hi1 : i < (c.slots.take (c.slots.length - (nb - c.head_time_bucket))).length := by
          rw [List.length_take]
          omega
        rw [List.getD_eq_getElem _ _ hi1, List.getElem_take,
          List.getD_eq_getElem _ _ (by omega : i < c.slots.length)]
      · intro i hi
        rw [List.getD_append _ _ _ _ (by rw [List.length_replicate]; exact hi),
          getD_replicate_self]

/-- Claim C2 witness: the theorem applied to a two-slot collector
advanced by one bucket. -/
theorem advance_ring_shifts_and_resets_witness :
    ((Collector.mk [⟨5, 5, 5, 1⟩, ⟨6, 6, 6, 2⟩] 3).advance_ring 4).head_time_bucket = 4 ∧
    (4 = (Collector.mk [⟨5, 5, 5, 1⟩, ⟨6, 6, 6, 2⟩] 3).head_time_bucket →
      (Collector.mk [⟨5, 5, 5, 1⟩, ⟨6, 6, 6, 2⟩] 3).advance_ring 4 =
        Collector.mk [⟨5, 5, 5, 1⟩, ⟨6, 6, 6, 2⟩] 3) ∧
    ((Collector.mk [⟨5, 5, 5, 1⟩, ⟨6, 6, 6, 2⟩] 3).slots.length ≤ 4 - 3 →
      ∀ i < (Collector.mk [⟨5, 5, 5, 1⟩, ⟨6, 6, 6, 2⟩] 3).slots.length,
        ((Collector.mk [⟨5, 5, 5, 1⟩, ⟨6, 6, 6, 2⟩] 3).advance_ring 4).slots.getD i
          Stats.identity = Stats.identity) ∧
    (4 - 3 < (Collector.mk [⟨5, 5, 5, 1⟩, ⟨6, 6, 6, 2⟩] 3).slots.length →
      (∀ i, i + (4 - 3) ≤ (Collector.mk [⟨5, 5, 5, 1⟩, ⟨6, 6, 6, 2⟩] 3).slots.length - 1 →
        ((Collector.mk [⟨5, 5, 5, 1⟩, ⟨6, 6, 6, 2⟩] 3).advance_ring 4).slots.getD
            (i + (4 - 3)) Stats.identity =
          (Collector.mk [⟨5, 5, 5, 1⟩, ⟨6, 6, 6, 2⟩] 3).slots.getD i Stats.identity) ∧
      (∀ i < 4 - 3,
        ((Collector.mk [⟨5, 5, 5, 1⟩, ⟨6, 6, 6, 2⟩] 3).advance_ring 4).slots.getD i
          Stats.identity = Stats.identity)) := by
  have h := advance_ring_shifts_and_resets (Collector.mk [⟨5, 5, 5, 1⟩, ⟨6, 6, 6, 2⟩] 3) 4
    (by decide) (by norm_num [U64])
  exact ⟨h.1, h.2.1, h.2.2.1, h.2.2.2⟩

/-- Claim C4: when the sample's bucket `begin_time / (SLOT_DURATION_MS *
1000)` lies outside the retained range `[head - NUM_SLOTS + 1, head]` of
the ring already advanced to the current bucket (too old, or from the
future), `record_time` returns the advanced collector unchanged — every
bucket is exactly as the advance left it, no error is surfaced, and hence
no later `accumulate_stats` can reflect the sample. -/
theorem out_of_range_sample_is_dropped (S now_us begin_time duration : Nat)
    (c : Collector)
    (hout : begin_time / (S * 1000) + c.slots.length ≤ now_us / (S * 1000) ∨
      now_us / (S * 1000) < begin_time / (S * 1000)) :
    Collector.record_time S now_us begin_time duration c =
      c.advance_ring (now_us / (S * 1000)) := by
  have hhead := advance_ring_head c (now_us / (S * 1000))
  have hlen := advance_ring_length c (now_us / (S * 1000))
  have hmod := Nat.mod_le (begin_time / (S * 1000) +
    (c.advance_ring (now_us / (S * 1000))).slots.length) U64
  simp only [Collector.record_time]
  rw [if_neg (by omega)]

/-- Claim C4 witness: a sample five buckets old in a three-slot ring is
dropped. -/
theorem out_of_range_sample_is_dropped_witness :
    Collector.record_time 1000 5000000 0 7 (Collector.fresh 3) =
      (Collector.fresh 3).advance_ring (5000000 / (1000 * 1000)) :=
  out_of_range_sample_is_dropped 1000 5000000 0 7 (Collector.fresh 3) (by decide)

lemma accumulate_num_samples_zero_of_tail_zero (S : Nat) (c : Collector) (w : Nat)
    (h : ∀ i, 1 ≤ i → (c.slots.getD i Stats.identity).num_samples = 0) :
    (c.accumulate_stats S w).num_samples = 0 := by
  have hz : ∀ x ∈ (List.range' 1 (min (1 + w / S) c.slots.length - 1)).map
      (fun i => c.slots.getD i Stats.identity), x.num_samples = 0 := by
    intro x hx
    rw [List.mem_map] at hx
    obtain ⟨i, hi, rfl⟩ := hx
    rw [List.mem_range'_1] at hi
    exact h i hi.1
  simp only [Collector.accumulate_stats]
  rw [drop_one_take_eq c.slots _ (Nat.min_le_right _ _),
    Stats.foldl_merge_all_zero _ _ hz]
  rfl

lemma record_after_gap_tail_zero (S t2 b2 d2 : Nat) (c1 : Collector)
    (hsep : c1.head_time_bucket + c1.slots.length ≤ t2 / (S * 1000))
    (ht2U : t2 / (S * 1000) < U64)
    (hb2 : t2 / (S * 1000) ≤ b2 / (S * 1000)) :
    ∀ i, 1 ≤ i →
      ((Collector.record_time S t2 b2 d2 c1).slots.getD i Stats.identity).num_samples
        = 0 := by
  intro i hi
  by_cases hlen0 : c1.slots.length = 0
  · have h2 : (Collector.record_time S t2 b2 d2 c1).slots = [] :=
      List.eq_nil_of_length_eq_zero (by rw [record_time_length]; exact hlen0)
    rw [h2]
    rfl
  · have hne : t2 / (S * 1000) ≠ c1.head_time_bucket := by omega
    have hmono1 : c1.head_time_bucket ≤ t2 / (S * 1000) := by omega
    have hge : c1.slots.length ≤ t2 / (S * 1000) - c1.head_time_bucket := by omega
    have hrep : (c1.advance_ring (t2 / (S * 1000))).slots =
        List.replicate c1.slots.length Stats.identity :=
      advance_ring_slots_of_ge _ _ hne hmono1 ht2U hge
    have hhead' := advance_ring_head c1 (t2 / (S * 1000))
    simp only [Collector.record_time]
    split
    · next hg =>
      have hidx0 : (c1.advance_ring (t2 / (S * 1000))).head_time_bucket -
          b2 / (S * 1000) = 0 := by
        obtain ⟨hg1, -⟩ := hg
        omega
      rw [hidx0, List.getD_eq_getElem?_getD,
        List.getElem?_set_ne (by omega : (0 : Nat) ≠ i),
        ← List.getD_eq_getElem?_getD, hrep, getD_replicate_self]
      rfl
    · rw [hrep, getD_replicate_self]
      rfl

/-- Claim C5 counterexample: the claim fails as stated.  On a fresh
five-slot collector with `SLOT_DURATION_MS = 1000`, a record at clock
`0 µs` followed by a record at clock `5500000 µs` — a gap of `5.5 s ≥
NUM_SLOTS * SLOT_DURATION_MS` — whose sample is back-dated to start at
`4900000 µs` (bucket 4, one bucket before the current bucket 5) passes
the in-range guard after the full reset and is written to slot 1, so
`accumulate_stats(5000)` returns count 1, not 0. -/
theorem gap_then_backdated_record_not_cleared :
    ((Collector.record_time 1000 5500000 4900000 9
        (Collector.record_time 1000 0 0 7
          (Collector.fresh 5))).accumulate_stats 1000 5000).num_samples = 1 := by
  decide

/-- Claim C5 (amended): when two `record_time` calls are separated by a
clock advance of at least `NUM_SLOTS * SLOT_DURATION_MS` (in the
collector's microsecond clock) and the second sample's start lies in the
clock's current bucket or later, an `accumulate_stats` call made
immediately after the second record returns `count = 0` for every window:
the shift wipes the whole prior history and the second sample can only
occupy the excluded bucket 0 (or be dropped).  The restriction on the
second sample's start is necessary: a start back-dated into an earlier
bucket is still written into a completed slot and counted. -/
theorem full_window_gap_clears_history (S t1 t2 b1 d1 b2 d2 w : Nat) (c : Collector)
    (hS : 0 < S)
    (hsep : t1 + c.slots.length * (S * 1000) ≤ t2)
    (ht2 : t2 < U64)
    (hb2 : t2 / (S * 1000) ≤ b2 / (S * 1000)) :
    ((Collector.record_time S t2 b2 d2
        (Collector.record_time S t1 b1 d1 c)).accumulate_stats S w).num_samples = 0 := by
  have hsppos : 0 < S * 1000 := by positivity
  have hh1 : (Collector.record_time S t1 b1 d1 c).head_time_bucket = t1 / (S * 1000) :=
    record_time_head S t1 b1 d1 c
  have hl1 : (Collector.record_time S t1 b1 d1 c).slots.length = c.slots.length :=
    record_time_length S t1 b1 d1 c
  have hdiv : (t1 + c.slots.length * (S * 1000)) / (S * 1000) =
      t1 / (S * 1000) + c.slots.length :=
    Nat.add_mul_div_right t1 c.slots.length hsppos
  have hdivle : (t1 + c.slots.length * (S * 1000)) / (S * 1000) ≤ t2 / (S * 1000) :=
    Nat.div_le_div_right hsep
  have hn12 : t1 / (S * 1000) + c.slots.length ≤ t2 / (S * 1000) := by omega
  have hnb2U : t2 / (S * 1000) < U64 :=
    Nat.lt_of_le_of_lt (Nat.div_le_self t2 (S * 1000)) ht2
  apply accumulate_num_samples_zero_of_tail_zero
  apply record_after_gap_tail_zero
  · rw [hh1, hl1]
    omega
  · exact hnb2U
  · exact hb2

/-- Claim C5 witness: a two-slot, one-second-per-bucket collector with
records two seconds apart. -/
theorem full_window_gap_clears_history_witness :
    ((Collector.record_time 1000 2000000 2000000 9
        (Collector.record_time 1000 0 0 7
          (Collector.fresh 2))).accumulate_stats 1000 5000).num_samples = 0 :=
  full_window_gap_clears_history 1000 0 2000000 0 7 2000000 9 5000
    (Collector.fresh 2) (by decide) (by decide)
    (by norm_num [U64]) (by decide)

/-- Claim C9 counterexample: construct one collector, destroy it, then
run destruction of the same handle again — the second `erase` finds no
entry and the run has no defined result (`none`), rather than leaving the
registry unchanged; in the C++ source the destructor unconditionally
erases its stored iterator (and has already deleted the list when it
became empty), so the claimed safe no-op does not hold. -/
theorem double_unregister_not_noop :
    applyEvents [] [RegEvent.reg 1, RegEvent.unreg 1, RegEvent.unreg 1] = none ∧
    unregisterCollector [] 1 ≠ some [] := by
  decide

/-- Claim C9 (amended): unregistering a collector whose entry is present
removes exactly that entry; unregistering a handle whose entry was already
removed has no defined behaviour (the destructor erases a dangling
iterator), embedded as `none` — it is not a safe no-op. -/
theorem unregister_removes_present_else_undefined (r : List Nat) (id : Nat) :
    (id ∈ r → unregisterCollector r id = some (r.erase id)) ∧
    (id ∉ r → unregisterCollector r id = none) := by
  constructor
  · intro h
    simp [unregisterCollector, h]
  · intro h
    simp [unregisterCollector, h]

/-- Claim C9 witness: the amended statement applied at concrete
registries. -/
theorem unregister_removes_present_else_undefined_witness :
    unregisterCollector [5] 5 = some ([5].erase 5) ∧
    unregisterCollector ([] : List Nat) 5 = none :=
  ⟨(unregister_removes_present_else_undefined [5] 5).1 (by decide),
    (unregister_removes_present_else_undefined [] 5).2 (by decide)⟩

lemma decide_not_mem_cons (i a : Nat) (us : List Nat) :
    decide (i ∉ a :: us) = (!(i == a) && decide (i ∉ us)) := by
  by_cases h1 : i = a <;> by_cases h2 : i ∈ us <;> simp [h1, h2]

lemma erase_append_filter (r0 X us : List Nat) (a : Nat)
    (hnd : (r0 ++ X).Nodup) (hmem : a ∈ r0) :
    (r0.erase a ++ X).filter (fun i => i ∉ us) =
      (r0 ++ X).filter (fun i => i ∉ a :: us) := by
  obtain ⟨hr0, hX, hdisj⟩ := List.nodup_append.mp hnd
  rw [List.filter_append, List.filter_append, List.Nodup.erase_eq_filter hr0 a,
    List.filter_filter]
  congr 1
  · apply List.filter_congr
    intro i hir
    rw [decide_not_mem_cons, Bool.and_comm]
    rfl
  · apply List.filter_congr
    intro i hiX
    have hia : i ≠ a := by
      intro h
      exact hdisj hmem (h ▸ hiX)
    rw [decide_not_mem_cons]
    simp [hia]

lemma applyEvents_filter (evs : List RegEvent) : ∀ (r0 r : List Nat),
    (r0 ++ regIds evs).Nodup → (unregIds evs).Nodup →
    applyEvents r0 evs = some r →
    r = (r0 ++ regIds evs).filter (fun i => i ∉ unregIds evs) := by
  induction evs with
  | nil =>
    intro r0 r hnd hnd2 happ
    simp only [applyEvents, Option.some_inj] at happ
    subst happ
    simp [regIds, unregIds]
  | cons e rest ih =>
    cases e with
    | reg a =>
      intro r0 r hnd hnd2 happ
      simp only [regIds, unregIds] at hnd hnd2 ⊢
      simp only [applyEvents, registerCollector] at happ
      have h := ih (r0 ++ [a]) r (by simpa [List.append_assoc] using hnd) hnd2 happ
      rw [h]
      simp only [List.append_assoc, List.singleton_append]
    | unreg a =>
      intro r0 r hnd hnd2 happ
      simp only [regIds, unregIds] at hnd hnd2 ⊢
      simp only [applyEvents, unregisterCollector] at happ
      by_cases hmem : a ∈ r0
      · rw [if_pos hmem] at happ
        obtain ⟨ha, hnd2'⟩ := List.nodup_cons.mp hnd2
        have hnde : (r0.erase a ++ regIds rest).Nodup :=
          ((List.erase_sublist a r0).append_right _).nodup hnd
        have h := ih (r0.erase a) r hnde hnd2' happ
        rw [h]
        exact erase_append_filter r0 (regIds rest) (unregIds rest) a hnd hmem
      · rw [if_neg hmem] at happ
        exact absurd happ (by simp)

/-- Claim C8: for every sequence of registrations and unregistrations in
which each construction registers a fresh collector and each destruction
removes a currently-registered one, the registry ends up holding exactly
the registered-and-not-destroyed collectors, in registration order — in
particular three registrations list as three in order, and destroying the
middle one leaves the outer two in their original relative order. -/
theorem registry_list_is_live_in_registration_order (evs : List RegEvent)
    (r : List Nat)
    (hreg : (regIds evs).Nodup) (hunreg : (unregIds evs).Nodup)
    (happly : applyEvents [] evs = some r) :
    r = (regIds evs).filter (fun i => i ∉ unregIds evs) := by
  have h := applyEvents_filter evs [] r (by simpa using hreg) hunreg happly
  simpa using h

/-- Claim C8 witness: three registrations, then destruction of the middle
collector. -/
theorem registry_list_is_live_in_registration_order_witness :
    ([1, 2, 3] : List Nat) =
      (regIds [RegEvent.reg 1, RegEvent.reg 2, RegEvent.reg 3]).filter
        (fun i => i ∉ unregIds [RegEvent.reg 1, RegEvent.reg 2, RegEvent.reg 3]) ∧
    ([1, 3] : List Nat) =
      (regIds [RegEvent.reg 1, RegEvent.reg 2, RegEvent.reg 3,
          RegEvent.unreg 2]).filter
        (fun i => i ∉ unregIds [RegEvent.reg 1, RegEvent.reg 2, RegEvent.reg 3,
          RegEvent.unreg 2]) :=
  ⟨registry_list_is_live_in_registration_order _ _ (by decide) (by decide) (by decide),
    registry_list_is_live_in_registration_order _ _ (by decide) (by decide) (by decide)⟩

/-- Claim C10: the checked embedding of `record_time`, whose slot access
is a total `Option`-returning lookup, never reaches the out-of-bounds
branch: on every input it returns `some` of the unchecked result, because
the in-range guard forces `head_time_bucket - begin_time_bucket <
NUM_SLOTS`. -/
theorem record_timeChecked_never_out_of_bounds (S now_us begin_time duration : Nat)
    (c : Collector) :
    Collector.record_timeChecked S now_us begin_time duration c =
      some (Collector.record_time S now_us begin_time duration c) := by
  simp only [Collector.record_timeChecked, Collector.record_time]
  split
  · next hg =>
    obtain ⟨h1, h2⟩ := hg
    have hle := Nat.mod_le (begin_time / (S * 1000) +
      (c.advance_ring (now_us / (S * 1000))).slots.length) U64
    have hidx : (c.advance_ring (now_us / (S * 1000))).head_time_bucket -
        begin_time / (S * 1000) < (c.advance_ring (now_us / (S * 1000))).slots.length := by
      omega
    rw [List.getElem?_eq_getElem hidx, List.getD_eq_getElem _ Stats.identity hidx]
  · rfl

end REHex
